import Mathlib

/-!
Shallow embedding of the axiom data-control-plane kernel
(crate `axiom_kernel`): the versioned append-only metadata log, the
table lifecycle state machine, the invariant engine, the replay
engine, drift detection and the drift-policy engine, together with
proofs of the specification's claims about them.

Each definition mirrors one Rust item of `src/kernel/src`; the module
and line references are given in the doc comments.  Rust `u64`
versions are modelled as `Nat` (no claim touches overflow), opaque
identifiers and payload bytes as `Nat` / `List Nat`, and fallible
methods return `Except`, with mutation rendered as explicit state
passing.
-/

namespace AxiomKernel

/-- `EventType` from `src/kernel/src/log/mod.rs`. -/
inductive EventType where
  | TableCreated
  | SchemaUpdated
  | SnapshotAdded
  | SnapshotRemoved
  deriving DecidableEq

/-- The string `{:?}` debug formatting produces for an `EventType`
(used in the `IllegalTransition` message). -/
def EventType.debugName : EventType → String
  | .TableCreated => "TableCreated"
  | .SchemaUpdated => "SchemaUpdated"
  | .SnapshotAdded => "SnapshotAdded"
  | .SnapshotRemoved => "SnapshotRemoved"

/-- `TableEvent` from `src/kernel/src/log/mod.rs`.  `TableId` is an
opaque identifier, modelled as `Nat`; the payload is an opaque byte
sequence, modelled as `List Nat`. -/
structure TableEvent where
  table_id : Nat
  version : Nat
  event_type : EventType
  payload : List Nat
  deriving DecidableEq

/-- `LogError` from `src/kernel/src/log/mod.rs`. -/
inductive LogError where
  | VersionConflict (expected : Nat) (actual : Nat)
  deriving DecidableEq

/-- `MetadataLog` from `src/kernel/src/log/mod.rs`: a `VecDeque` of
events, modelled as a list in front-to-back order (`push_back`
appends at the tail, `back` reads the tail). -/
structure MetadataLog where
  events : List TableEvent
  deriving DecidableEq

/-- `MetadataLog::new`. -/
def MetadataLog.new : MetadataLog := ⟨[]⟩

/-- `MetadataLog::append` (`src/kernel/src/log/mod.rs` lines 46-61):
the expected version is the back event's version plus one, or 1 when
the log is empty; a mismatch fails with `VersionConflict` and leaves
the log unchanged, a match pushes the event at the back. -/
def MetadataLog.append (log : MetadataLog) (event : TableEvent) :
    Except LogError MetadataLog :=
  let expected : Nat :=
    match log.events.getLast? with
    | some last => last.version + 1
    | none => 1
  if event.version ≠ expected then
    .error (.VersionConflict expected event.version)
  else
    .ok ⟨log.events ++ [event]⟩

/-- `MetadataLog::replay`: iterate the stored events in order. -/
def MetadataLog.replayEvents (log : MetadataLog) : List TableEvent :=
  log.events

/-- `MetadataLog::current_version`: the back event's version, or 0
when empty. -/
def MetadataLog.current_version (log : MetadataLog) : Nat :=
  match log.events.getLast? with
  | some e => e.version
  | none => 0

/-- `TableState` from `src/kernel/src/state/mod.rs`. -/
inductive TableState where
  | Created
  | Active
  | Mutating
  deriving DecidableEq

/-- The string `{:?}` debug formatting produces for a `TableState`. -/
def TableState.debugName : TableState → String
  | .Created => "Created"
  | .Active => "Active"
  | .Mutating => "Mutating"

/-- `StateError` from `src/kernel/src/state/mod.rs`. -/
inductive StateError where
  | IllegalTransition (msg : String)
  deriving DecidableEq

/-- `TableStateMachine` from `src/kernel/src/state/mod.rs`. -/
structure TableStateMachine where
  state : TableState
  deriving DecidableEq

/-- `TableStateMachine::new`: starts at `Created`. -/
def TableStateMachine.new : TableStateMachine := ⟨.Created⟩

/-- `TableStateMachine::apply` (`src/kernel/src/state/mod.rs` lines
49-73).  The Rust method mutates `self.state` and returns a
`Result`; here it returns the result paired with the
machine after the call, so that the failure case visibly leaves the
machine unchanged (the Rust code returns before assigning). -/
def TableStateMachine.apply (m : TableStateMachine) (event : TableEvent) :
    Except StateError Unit × TableStateMachine :=
  match m.state, event.event_type with
  | .Created, .TableCreated => (.ok (), ⟨.Active⟩)
  | .Active, .SchemaUpdated
  | .Active, .SnapshotAdded
  | .Active, .SnapshotRemoved => (.ok (), ⟨.Mutating⟩)
  | .Mutating, .SchemaUpdated
  | .Mutating, .SnapshotAdded
  | .Mutating, .SnapshotRemoved => (.ok (), ⟨.Active⟩)
  | s, evt =>
      (.error (.IllegalTransition
        ("cannot apply " ++ evt.debugName ++ " while in " ++ s.debugName)), m)

/-- `TableStateMachine::current_state`. -/
def TableStateMachine.current_state (m : TableStateMachine) : TableState :=
  m.state

/-- `InvariantResult` from `src/kernel/src/invariants/mod.rs`. -/
inductive InvariantResult where
  | Pass
  | Fail (reason : String)
  deriving DecidableEq

/-- The `Invariant` trait from `src/kernel/src/invariants/mod.rs`,
modelled as a record of its two methods. -/
structure Invariant where
  name : String
  validate : TableState → TableEvent → TableState → InvariantResult

/-- `InvariantViolation` from `src/kernel/src/invariants/mod.rs`. -/
structure InvariantViolation where
  invariant : String
  reason : String
  deriving DecidableEq

/-- `InvariantEngine` from `src/kernel/src/invariants/mod.rs`: an
ordered registry of invariants (`register` pushes at the back). -/
structure InvariantEngine where
  invariants : List Invariant

/-- `InvariantEngine::new`: empty registry. -/
def InvariantEngine.new : InvariantEngine := ⟨[]⟩

/-- `InvariantEngine::register`: push the invariant at the back. -/
def InvariantEngine.register (engine : InvariantEngine) (inv : Invariant) :
    InvariantEngine :=
  ⟨engine.invariants ++ [inv]⟩

/-- The loop body of `InvariantEngine::evaluate`: walk the registry in
order, stopping at the first `Fail`. -/
def evaluateInvariants (invs : List Invariant) (previous_state : TableState)
    (event : TableEvent) (next_state : TableState) :
    Except InvariantViolation Unit :=
  match invs with
  | [] => .ok ()
  | inv :: rest =>
      match inv.validate previous_state event next_state with
      | .Pass => evaluateInvariants rest previous_state event next_state
      | .Fail reason => .error ⟨inv.name, reason⟩

/-- `InvariantEngine::evaluate` (`src/kernel/src/invariants/mod.rs`
lines 56-74). -/
def InvariantEngine.evaluate (engine : InvariantEngine)
    (previous_state : TableState) (event : TableEvent)
    (next_state : TableState) : Except InvariantViolation Unit :=
  evaluateInvariants engine.invariants previous_state event next_state

/-- `ReplayError` from `src/kernel/src/replay/mod.rs`. -/
inductive ReplayError where
  | State (e : StateError)
  | Invariant (v : InvariantViolation)
  deriving DecidableEq

/-- The loop of `replay_table_state`: the state machine together with
the committed `current_state`, exactly as the Rust function keeps
both. -/
def replayLoop (invariants : InvariantEngine) :
    TableStateMachine → TableState → List TableEvent →
    Except ReplayError TableState
  | _, current_state, [] => .ok current_state
  | sm, current_state, event :: rest =>
      match sm.apply event with
      | (.error e, _) => .error (.State e)
      | (.ok _, sm') =>
          let next_state := sm'.current_state
          match invariants.evaluate current_state event next_state with
          | .error v => .error (.Invariant v)
          | .ok _ => replayLoop invariants sm' next_state rest

/-- `replay_table_state` (`src/kernel/src/replay/mod.rs` lines
23-43): fresh machine at `Created`, `current_state` initialised from
it, then the loop. -/
def replay_table_state (log : MetadataLog) (invariants : InvariantEngine) :
    Except ReplayError TableState :=
  replayLoop invariants TableStateMachine.new
    TableStateMachine.new.current_state log.replayEvents

/-- `DriftSeverity` from `src/kernel/src/state/drift.rs`. -/
inductive DriftSeverity where
  | Info
  | Warning
  | Critical
  deriving DecidableEq

/-- The key `DriftReport::highest_severity` maps each severity to in
its `max_by_key` call (`Info` 0, `Warning` 1, `Critical` 2). -/
def severityKey : DriftSeverity → Nat
  | .Info => 0
  | .Warning => 1
  | .Critical => 2

/-- `DriftType` from `src/kernel/src/state/drift.rs`. -/
inductive DriftType where
  | UnexpectedMutation
  | SchemaMismatch
  | SnapshotMismatch
  deriving DecidableEq

/-- `DriftFinding` from `src/kernel/src/state/drift.rs`. -/
structure DriftFinding where
  drift_type : DriftType
  severity : DriftSeverity
  message : String
  deriving DecidableEq

/-- `DriftReport` from `src/kernel/src/state/drift.rs`. -/
structure DriftReport where
  findings : List DriftFinding
  deriving DecidableEq

/-- `DriftReport::is_clean`. -/
def DriftReport.is_clean (r : DriftReport) : Bool :=
  r.findings.isEmpty

/-- One step of the `max_by_key` fold inside
`DriftReport::highest_severity`: Rust's `max_by_key` keeps the later
element on ties, so the accumulator is replaced whenever the new key
is at least the current one. -/
def sevMaxStep (acc : Option DriftSeverity) (s : DriftSeverity) :
    Option DriftSeverity :=
  match acc with
  | none => some s
  | some m => if severityKey m ≤ severityKey s then some s else some m

/-- `DriftReport::highest_severity` (`src/kernel/src/state/drift.rs`
lines 50-59): `max_by_key` over the findings' severities with
`severityKey`. -/
def DriftReport.highest_severity (r : DriftReport) : Option DriftSeverity :=
  (r.findings.map (·.severity)).foldl sevMaxStep none

/-- `IcebergTableState` from `src/kernel/src/adapters/iceberg/mod.rs`:
the normalized external-catalog snapshot (`table_uuid` opaque,
`current_snapshot_id : Option<i64>`, `current_schema_id : i32`). -/
structure IcebergTableState where
  table_uuid : Nat
  current_snapshot_id : Option Int
  current_schema_id : Int
  deriving DecidableEq

/-- `detect_drift` (`src/kernel/src/state/drift.rs` lines 63-85):
rule 1 pushes an `UnexpectedMutation`/`Warning` finding when the
expected state is `Active` and a current snapshot id is present;
rule 2 pushes a `SchemaMismatch`/`Critical` finding when the schema
id is negative. -/
def detect_drift (expected : TableState) (actual : IcebergTableState) :
    DriftReport :=
  let rule1 : List DriftFinding :=
    if expected = TableState.Active ∧ actual.current_snapshot_id.isSome then
      [⟨.UnexpectedMutation, .Warning,
        "table snapshot changed while expected state is ACTIVE"⟩]
    else []
  let rule2 : List DriftFinding :=
    if actual.current_schema_id < 0 then
      [⟨.SchemaMismatch, .Critical, "invalid schema identifier detected"⟩]
    else []
  ⟨rule1 ++ rule2⟩

/-- `IntendedAction` from `src/kernel/src/state/policy.rs`. -/
inductive IntendedAction where
  | Observe
  | Alert
  | Enforce
  deriving DecidableEq

/-- `PolicyDecision` from `src/kernel/src/state/policy.rs`. -/
structure PolicyDecision where
  severity : DriftSeverity
  action : IntendedAction
  reason : String
  deriving DecidableEq

/-- `DecisionPlan` from `src/kernel/src/state/policy.rs`. -/
structure DecisionPlan where
  decisions : List PolicyDecision
  deriving DecidableEq

/-- `DecisionPlan::is_empty`. -/
def DecisionPlan.is_empty (p : DecisionPlan) : Bool :=
  p.decisions.isEmpty

/-- The loop body of `evaluate_drift_policy`: compute the hard-coded
`(action, reason)` pair for the finding's severity and push one
decision. -/
def policyStep (decisions : List PolicyDecision) (finding : DriftFinding) :
    List PolicyDecision :=
  let actionReason : IntendedAction × String :=
    match finding.severity with
    | .Info => (.Observe, "informational drift, no action required")
    | .Warning => (.Alert, "warning-level drift, operator attention recommended")
    | .Critical => (.Enforce, "critical drift detected, enforcement would be required")
  decisions ++ [⟨finding.severity, actionReason.1, actionReason.2⟩]

/-- `evaluate_drift_policy` (`src/kernel/src/state/policy.rs` lines
49-76): for each finding, in order, push one decision whose action
and reason are the hard-coded per-severity pair. -/
def evaluate_drift_policy (report : DriftReport) : DecisionPlan :=
  ⟨report.findings.foldl policyStep []⟩

/-- `PolicyRule` from `src/kernel/src/state/policy_config.rs`. -/
structure PolicyRule where
  severity : DriftSeverity
  action : IntendedAction
  reason : String
  deriving DecidableEq

/-- `PolicyConfig` from `src/kernel/src/state/policy_config.rs`. -/
structure PolicyConfig where
  rules : List PolicyRule
  deriving DecidableEq

/-- `PolicyConfig::default_policy` (`src/kernel/src/state/policy_config.rs`
lines 26-46). -/
def PolicyConfig.default_policy : PolicyConfig :=
  ⟨[⟨.Info, .Observe, "informational drift"⟩,
    ⟨.Warning, .Alert, "warning-level drift"⟩,
    ⟨.Critical, .Enforce, "critical drift"⟩]⟩

/-- Modelled from the spec: `evaluate_drift_policy_with_config`, the
config-aware policy evaluation called by `simulate_table`, is not
among the repository files under `src/` (only its caller is).
Following the spec's words, for each finding, in report order, its
severity is looked up against `config.rules` and one decision
`{severity, action, reason}` is emitted from the matching rule; one
decision per finding, order preserved, no deduplication.  The spec
does not say what happens when no rule matches a severity; the model
then falls back to the built-in default mapping of
`evaluate_drift_policy`, and no claim depends on that case. -/
def evaluate_drift_policy_with_config (report : DriftReport)
    (config : PolicyConfig) : DecisionPlan :=
  ⟨report.findings.map
    (fun finding =>
      match config.rules.find? (fun r => r.severity == finding.severity) with
      | some rule => ⟨finding.severity, rule.action, rule.reason⟩
      | none =>
          match finding.severity with
          | .Info => ⟨finding.severity, .Observe,
              "informational drift, no action required"⟩
          | .Warning => ⟨finding.severity, .Alert,
              "warning-level drift, operator attention recommended"⟩
          | .Critical => ⟨finding.severity, .Enforce,
              "critical drift detected, enforcement would be required"⟩)⟩

/-- `SimulationResult` from `src/kernel/src/simulate.rs`. -/
structure SimulationResult where
  expected_state : TableState
  drift_report : DriftReport
  decision_plan : DecisionPlan
  deriving DecidableEq

/-- `SimulationError` from `src/kernel/src/simulate.rs`. -/
inductive SimulationError where
  | Replay (e : ReplayError)
  deriving DecidableEq

/-- `simulate_table` (`src/kernel/src/simulate.rs` lines 36-57):
replay, then drift detection, then config-aware policy evaluation. -/
def simulate_table (log : MetadataLog) (invariants : InvariantEngine)
    (actual_state : IcebergTableState) (policy : PolicyConfig) :
    Except SimulationError SimulationResult :=
  match replay_table_state log invariants with
  | .error e => .error (.Replay e)
  | .ok expected_state =>
      let drift_report := detect_drift expected_state actual_state
      let decision_plan :=
        evaluate_drift_policy_with_config drift_report policy
      .ok ⟨expected_state, drift_report, decision_plan⟩

/-! ### Definitions written from the spec's words, for refinement claims -/

/-- The spec's transition table (§4.3), written from its words:
each declared `(state, event)` pair maps to the new state, every
undeclared pair is `none` (illegal). -/
def specTransitionTable : TableState → EventType → Option TableState
  | .Created, .TableCreated => some .Active
  | .Active, .SchemaUpdated
  | .Active, .SnapshotAdded
  | .Active, .SnapshotRemoved => some .Mutating
  | .Mutating, .SchemaUpdated
  | .Mutating, .SnapshotAdded
  | .Mutating, .SnapshotRemoved => some .Active
  | _, _ => none

/-- The replay engine as the spec words it (§4.4): fold the events in
log order from a given state; for each event apply it to the state
machine (an illegal transition aborts as `ReplayError.State`), then
evaluate the invariants on (previous, event, next) (a violation
aborts as `ReplayError.Invariant`), then commit the next state. -/
def replayFold (invariants : InvariantEngine) (current : TableState) :
    List TableEvent → Except ReplayError TableState
  | [] => .ok current
  | e :: rest =>
      match TableStateMachine.apply ⟨current⟩ e with
      | (.error se, _) => .error (.State se)
      | (.ok _, sm') =>
          match invariants.evaluate current e sm'.state with
          | .error v => .error (.Invariant v)
          | .ok _ => replayFold invariants sm'.state rest

/-- The built-in default severity mapping as the spec states it
(Info→Observe, Warning→Alert, Critical→Enforce), with the reasons the
no-config policy engine hard-codes. -/
def specDefaultDecision (finding : DriftFinding) : PolicyDecision :=
  match finding.severity with
  | .Info => ⟨finding.severity, .Observe,
      "informational drift, no action required"⟩
  | .Warning => ⟨finding.severity, .Alert,
      "warning-level drift, operator attention recommended"⟩
  | .Critical => ⟨finding.severity, .Enforce,
      "critical drift detected, enforcement would be required"⟩

/-! ### Helper lemmas -/

/-- The expected version computed inside `append` is always
`current_version + 1`. -/
theorem MetadataLog.expected_eq (log : MetadataLog) :
    (match log.events.getLast? with
      | some last => last.version + 1
      | none => 1) = log.current_version + 1 := by
  unfold MetadataLog.current_version
  cases log.events.getLast? <;> rfl

/-- `append` as a single conditional on `current_version`. -/
theorem MetadataLog.append_eq (log : MetadataLog) (e : TableEvent) :
    log.append e =
      if e.version = log.current_version + 1 then
        .ok ⟨log.events ++ [e]⟩
      else
        .error (.VersionConflict (log.current_version + 1) e.version) := by
  unfold MetadataLog.append
  rw [log.expected_eq]
  by_cases h : e.version = log.current_version + 1 <;> simp [h]

/-! ### The claims -/

/-- C1: `MetadataLog::append` succeeds exactly when the event's
version is `current_version + 1`; otherwise it fails with
`VersionConflict{expected = current_version + 1, actual = version}`
leaving the stored sequence unchanged; on success the event becomes
visible to replay and to `current_version`; and appending version 1
twice leaves exactly one stored event, the second call failing with
`VersionConflict{expected: 2, actual: 1}`. -/
theorem C1_append_version_gate :
    (∀ (log : MetadataLog) (e : TableEvent),
      (∃ log', log.append e = .ok log') ↔
        e.version = log.current_version + 1) ∧
    (∀ (log : MetadataLog) (e : TableEvent),
      e.version ≠ log.current_version + 1 →
        log.append e =
          .error (.VersionConflict (log.current_version + 1) e.version)) ∧
    (∀ (log log' : MetadataLog) (e : TableEvent),
      log.append e = .ok log' →
        log'.replayEvents = log.replayEvents ++ [e] ∧
        log'.current_version = e.version) ∧
    (MetadataLog.new.append ⟨0, 1, .TableCreated, []⟩ =
        .ok ⟨[⟨0, 1, .TableCreated, []⟩]⟩ ∧
      (MetadataLog.mk [⟨0, 1, .TableCreated, []⟩]).append
          ⟨0, 1, .TableCreated, []⟩ =
        .error (.VersionConflict 2 1) ∧
      (MetadataLog.mk [⟨0, 1, .TableCreated, []⟩]).events.length = 1) := by
  refine ⟨?_, ?_, ?_, ?_⟩
  · intro log e
    rw [log.append_eq]
    by_cases h : e.version = log.current_version + 1 <;> simp [h]
  · intro log e h
    rw [log.append_eq, if_neg h]
  · intro log log' e h
    rw [log.append_eq] at h
    by_cases hv : e.version = log.current_version + 1
    · rw [if_pos hv] at h
      cases h
      refine ⟨rfl, ?_⟩
      simp [MetadataLog.current_version, List.getLast?_concat]
    · rw [if_neg hv] at h
      cases h
  · exact ⟨rfl, rfl, rfl⟩

/-- C2: `TableStateMachine::apply` implements exactly the spec's
transition table: every declared pair moves the machine to the
declared next state, and every undeclared pair fails with an
`IllegalTransition` message naming the rejected event type and the
current state, leaving the machine unchanged. -/
theorem C2_apply_transition_table (m : TableStateMachine) (e : TableEvent) :
    (∀ next, specTransitionTable m.state e.event_type = some next →
        m.apply e = (.ok (), ⟨next⟩)) ∧
    (specTransitionTable m.state e.event_type = none →
        m.apply e =
          (.error (.IllegalTransition
            ("cannot apply " ++ e.event_type.debugName ++ " while in " ++
              m.state.debugName)), m)) := by
  obtain ⟨s⟩ := m
  obtain ⟨tid, ver, ety, pl⟩ := e
  cases s <;> cases ety <;>
    simp [TableStateMachine.apply, specTransitionTable, TableState.debugName,
      EventType.debugName]

/-- The replay loop keeps its state machine and its committed state in
sync: run from a machine whose state is the committed state, it
computes exactly the spec's fold. -/
theorem replayLoop_eq_fold (inv : InvariantEngine) (events : List TableEvent) :
    ∀ cur : TableState,
      replayLoop inv ⟨cur⟩ cur events = replayFold inv cur events := by
  induction events with
  | nil => intro cur; rfl
  | cons e rest ih =>
      intro cur
      simp only [replayLoop, replayFold]
      cases hap : TableStateMachine.apply ⟨cur⟩ e with
      | mk res sm' =>
          cases res with
          | error se => rfl
          | ok u =>
              obtain ⟨s'⟩ := sm'
              simp only [TableStateMachine.current_state]
              cases hev : inv.evaluate cur e s' with
              | error v => rfl
              | ok w => exact ih s'

/-- C3: `replay_table_state` is exactly the spec's fold: it starts
from `Created` and folds the events in log order (state-machine step,
then invariant verdict, then commit), returning the final committed
state, `Created` on an empty log; and the scenario log
`[v1 SchemaUpdated]` fails with an `IllegalTransition` naming
`Created` and `SchemaUpdated`, whatever the invariant set. -/
theorem C3_replay_is_fold (log : MetadataLog) (invariants : InvariantEngine) :
    replay_table_state log invariants =
      replayFold invariants .Created log.events ∧
    (log.events = [] → replay_table_state log invariants = .ok .Created) ∧
    replay_table_state ⟨[⟨0, 1, .SchemaUpdated, []⟩]⟩ invariants =
      .error (.State (.IllegalTransition
        "cannot apply SchemaUpdated while in Created")) := by
  refine ⟨replayLoop_eq_fold invariants log.events .Created, ?_, ?_⟩
  · intro h
    unfold replay_table_state MetadataLog.replayEvents
    rw [h]
    rfl
  · rfl

/-- `evaluateInvariants` succeeds exactly when every rule passes. -/
theorem evaluateInvariants_ok_iff (invs : List Invariant) (p : TableState)
    (e : TableEvent) (n : TableState) :
    evaluateInvariants invs p e n = .ok () ↔
      ∀ inv ∈ invs, inv.validate p e n = .Pass := by
  induction invs with
  | nil => simp [evaluateInvariants]
  | cons inv rest ih =>
      simp only [evaluateInvariants]
      cases h : inv.validate p e n with
      | Pass => simp [h, ih]
      | Fail r => simp [h]

/-- A failure of `evaluateInvariants` is the first failing rule's
verdict: all earlier rules pass. -/
theorem evaluateInvariants_error (invs : List Invariant) (p : TableState)
    (e : TableEvent) (n : TableState) (v : InvariantViolation) :
    evaluateInvariants invs p e n = .error v →
      ∃ i, ∃ hi : i < invs.length,
        (invs.get ⟨i, hi⟩).validate p e n = .Fail v.reason ∧
        v.invariant = (invs.get ⟨i, hi⟩).name ∧
        ∀ j, ∀ hj : j < invs.length, j < i →
          (invs.get ⟨j, hj⟩).validate p e n = .Pass := by
  induction invs with
  | nil => intro h; simp [evaluateInvariants] at h
  | cons inv rest ih =>
      intro h
      simp only [evaluateInvariants] at h
      cases hv : inv.validate p e n with
      | Pass =>
          rw [hv] at h
          obtain ⟨i, hi, hfail, hname, hbefore⟩ := ih h
          refine ⟨i + 1, by simpa using Nat.succ_lt_succ hi, ?_, ?_, ?_⟩
          · simpa using hfail
          · simpa using hname
          · intro j hj hji
            cases j with
            | zero => simpa using hv
            | succ k =>
                have hk : k < rest.length := by simpa using hj
                have := hbefore k hk (Nat.lt_of_succ_lt_succ hji)
                simpa using this
      | Fail reason =>
          rw [hv] at h
          cases h
          refine ⟨0, by simp, by simpa using hv, by simp, ?_⟩
          intro j hj hji
          exact absurd hji (Nat.not_lt_zero j)

/-- C4: the invariant engine's `evaluate` returns `Ok` exactly when
every registered rule passes; a failure is the first failing rule's
verdict in registration order, wrapped with that rule's name and
reason; an empty registry always passes. -/
theorem C4_evaluate_first_failure (engine : InvariantEngine)
    (p : TableState) (e : TableEvent) (n : TableState) :
    (engine.evaluate p e n = .ok () ↔
      ∀ inv ∈ engine.invariants, inv.validate p e n = .Pass) ∧
    (∀ v, engine.evaluate p e n = .error v →
      ∃ i, ∃ hi : i < engine.invariants.length,
        (engine.invariants.get ⟨i, hi⟩).validate p e n = .Fail v.reason ∧
        v.invariant = (engine.invariants.get ⟨i, hi⟩).name ∧
        ∀ j, ∀ hj : j < engine.invariants.length, j < i →
          (engine.invariants.get ⟨j, hj⟩).validate p e n = .Pass) ∧
    (engine.invariants = [] → engine.evaluate p e n = .ok ()) := by
  refine ⟨evaluateInvariants_ok_iff engine.invariants p e n, ?_, ?_⟩
  · intro v h
    exact evaluateInvariants_error engine.invariants p e n v h
  · intro h
    unfold InvariantEngine.evaluate
    rw [h]
    rfl

/-- Folding from a non-empty accumulator never yields `none`. -/
theorem sevFold_ne_none (l : List DriftSeverity) :
    ∀ m : DriftSeverity, l.foldl sevMaxStep (some m) ≠ none := by
  induction l with
  | nil => intro m; simp
  | cons x rest ih =>
      intro m
      simp only [List.foldl_cons, sevMaxStep]
      by_cases h : severityKey m ≤ severityKey x
      · rw [if_pos h]; exact ih x
      · rw [if_neg h]; exact ih m

/-- The fold's result is an element (or the seed) whose key dominates
the seed and every element of the list. -/
theorem sevFold_max (l : List DriftSeverity) :
    ∀ m s : DriftSeverity, l.foldl sevMaxStep (some m) = some s →
      (s = m ∨ s ∈ l) ∧ severityKey m ≤ severityKey s ∧
      ∀ x ∈ l, severityKey x ≤ severityKey s := by
  induction l with
  | nil =>
      intro m s h
      simp only [List.foldl_nil, Option.some.injEq] at h
      subst h
      simp
  | cons x rest ih =>
      intro m s h
      simp only [List.foldl_cons, sevMaxStep] at h
      by_cases hmx : severityKey m ≤ severityKey x
      · rw [if_pos hmx] at h
        obtain ⟨hmem, hle, hall⟩ := ih x s h
        refine ⟨?_, le_trans hmx hle, ?_⟩
        · rcases hmem with h' | h'
          · exact Or.inr (by simp [h'])
          · exact Or.inr (List.mem_cons_of_mem x h')
        · intro y hy
          rcases List.mem_cons.mp hy with h' | h'
          · subst h'; exact hle
          · exact hall y h'
      · rw [if_neg hmx] at h
        obtain ⟨hmem, hle, hall⟩ := ih m s h
        refine ⟨?_, hle, ?_⟩
        · rcases hmem with h' | h'
          · exact Or.inl h'
          · exact Or.inr (List.mem_cons_of_mem x h')
        · intro y hy
          rcases List.mem_cons.mp hy with h' | h'
          · subst h'
            exact le_trans (le_of_lt (lt_of_not_le hmx)) hle
          · exact hall y h'

/-- C7: `highest_severity` is `none` exactly on an empty report, and
otherwise returns a severity that occurs among the findings and
dominates every finding's severity in the total order
Info < Warning < Critical (encoded by `severityKey`); `is_clean`
holds exactly when there are zero findings. -/
theorem C7_highest_severity_max (r : DriftReport) :
    (r.highest_severity = none ↔ r.findings = []) ∧
    (∀ s, r.highest_severity = some s →
      (∃ f ∈ r.findings, f.severity = s) ∧
      ∀ f ∈ r.findings, severityKey f.severity ≤ severityKey s) ∧
    (r.is_clean = true ↔ r.findings = []) := by
  refine ⟨?_, ?_, ?_⟩
  · cases hf : r.findings with
    | nil => simp [DriftReport.highest_severity, hf]
    | cons f rest =>
        simp only [DriftReport.highest_severity, hf, List.map_cons,
          List.foldl_cons, sevMaxStep]
        constructor
        · intro h
          exact absurd h (sevFold_ne_none (rest.map (·.severity)) f.severity)
        · intro h
          cases h
  · intro s h
    cases hf : r.findings with
    | nil =>
        rw [DriftReport.highest_severity, hf] at h
        cases h
    | cons f rest =>
        rw [DriftReport.highest_severity, hf] at h
        simp only [List.map_cons, List.foldl_cons] at h
        have hstep : sevMaxStep none f.severity = some f.severity := rfl
        rw [hstep] at h
        obtain ⟨hmem, hle, hall⟩ := sevFold_max (rest.map (·.severity))
          f.severity s h
        constructor
        · rcases hmem with h' | h'
          · exact ⟨f, by simp [hf, h'.symm]⟩
          · obtain ⟨g, hg, hgs⟩ := List.mem_map.mp h'
            exact ⟨g, by simp [hf, List.mem_cons_of_mem, hg, hgs]⟩
        · intro g hg
          rcases List.mem_cons.mp hg with h' | h'
          · subst h'; exact hle
          · exact hall g.severity (List.mem_map.mpr ⟨g, h', rfl⟩)
  · simp [DriftReport.is_clean, List.isEmpty_iff]

/-- C5: `detect_drift` produces an `UnexpectedMutation`/`Warning`
finding exactly when the expected state is `Active` and a snapshot id
is present, a `SchemaMismatch`/`Critical` finding exactly when the
schema id is negative, and nothing else; each rule fires at most
once, and when the first rule's condition holds there is exactly one
`Warning` `UnexpectedMutation` finding. -/
theorem C5_detect_drift_rules (expected : TableState)
    (actual : IcebergTableState) :
    ((∃ f ∈ (detect_drift expected actual).findings,
        f.drift_type = .UnexpectedMutation ∧ f.severity = .Warning) ↔
      (expected = TableState.Active ∧
        actual.current_snapshot_id.isSome = true)) ∧
    ((∃ f ∈ (detect_drift expected actual).findings,
        f.drift_type = .SchemaMismatch ∧ f.severity = .Critical) ↔
      actual.current_schema_id < 0) ∧
    (∀ f ∈ (detect_drift expected actual).findings,
      (f.drift_type = .UnexpectedMutation ∧ f.severity = .Warning) ∨
      (f.drift_type = .SchemaMismatch ∧ f.severity = .Critical)) ∧
    ((detect_drift expected actual).findings.countP
        (fun f => f.drift_type == DriftType.UnexpectedMutation) ≤ 1) ∧
    ((detect_drift expected actual).findings.countP
        (fun f => f.drift_type == DriftType.SchemaMismatch) ≤ 1) ∧
    (expected = TableState.Active →
      actual.current_snapshot_id.isSome = true →
      (detect_drift expected actual).findings.countP
        (fun f => f.drift_type == DriftType.UnexpectedMutation &&
          f.severity == DriftSeverity.Warning) = 1) := by
  unfold detect_drift
  split_ifs with h1 h2 h2 <;>
    simp_all [List.countP_cons, List.countP_nil]

/-- C9 (implicit): every drift report has at most two findings, none
of drift type `SnapshotMismatch` and none of severity `Info`, even
though both values are declared in the enumerations. -/
theorem C9_drift_report_shape (expected : TableState)
    (actual : IcebergTableState) :
    (detect_drift expected actual).findings.length ≤ 2 ∧
    ∀ f ∈ (detect_drift expected actual).findings,
      f.drift_type ≠ DriftType.SnapshotMismatch ∧
      f.severity ≠ DriftSeverity.Info := by
  unfold detect_drift
  split_ifs <;> simp_all

/-- One policy step pushes exactly the spec's default decision. -/
theorem policyStep_eq (decisions : List PolicyDecision) (finding : DriftFinding) :
    policyStep decisions finding = decisions ++ [specDefaultDecision finding] := by
  obtain ⟨dt, sev, msg⟩ := finding
  cases sev <;> rfl

/-- The policy fold is the map of the spec's default decision. -/
theorem foldl_policyStep (l : List DriftFinding) :
    ∀ acc : List PolicyDecision,
      l.foldl policyStep acc = acc ++ l.map specDefaultDecision := by
  induction l with
  | nil => intro acc; simp
  | cons f rest ih =>
      intro acc
      rw [List.foldl_cons, policyStep_eq, ih]
      simp

/-- C6: policy evaluation emits one decision per finding, in report
order, with no aggregation: with a configuration, the decision for a
finding comes from the configured rule found for its severity; with
no configuration, it is the built-in default mapping
(Info→Observe, Warning→Alert, Critical→Enforce); an empty report
yields an empty plan either way. -/
theorem C6_policy_per_finding (report : DriftReport) (config : PolicyConfig) :
    ((evaluate_drift_policy_with_config report config).decisions.length =
      report.findings.length) ∧
    (∀ (i : Nat) (f : DriftFinding), report.findings[i]? = some f →
      ∀ rule,
        config.rules.find? (fun r => r.severity == f.severity) = some rule →
        (evaluate_drift_policy_with_config report config).decisions[i]? =
          some ⟨f.severity, rule.action, rule.reason⟩) ∧
    ((evaluate_drift_policy report).decisions.length =
      report.findings.length) ∧
    (∀ (i : Nat) (f : DriftFinding), report.findings[i]? = some f →
      (evaluate_drift_policy report).decisions[i]? =
        some (specDefaultDecision f)) ∧
    (report.findings = [] →
      (evaluate_drift_policy_with_config report config).decisions = [] ∧
      (evaluate_drift_policy report).decisions = []) := by
  have hdef : (evaluate_drift_policy report).decisions =
      report.findings.map specDefaultDecision := by
    unfold evaluate_drift_policy
    exact foldl_policyStep report.findings []
  refine ⟨?_, ?_, ?_, ?_, ?_⟩
  · simp [evaluate_drift_policy_with_config]
  · intro i f hf rule hrule
    unfold evaluate_drift_policy_with_config
    simp [List.getElem?_map, hf, hrule]
  · rw [hdef, List.length_map]
  · intro i f hf
    rw [hdef]
    simp [List.getElem?_map, hf]
  · intro h
    constructor
    · unfold evaluate_drift_policy_with_config
      rw [h]
      rfl
    · rw [hdef, h]
      rfl

/-- C8: on an empty log with an actual catalog state whose schema id
is -1, the pipeline under the default policy yields expected state
`Created`, a drift report with exactly one `Critical`/`SchemaMismatch`
finding, and a decision plan with exactly one decision, whose action
is `Enforce`. -/
theorem C8_end_to_end_schema_mismatch (uuid : Nat) (snap : Option Int) :
    ∃ result,
      simulate_table MetadataLog.new InvariantEngine.new
          ⟨uuid, snap, -1⟩ PolicyConfig.default_policy = .ok result ∧
      result.expected_state = TableState.Created ∧
      result.drift_report.findings.length = 1 ∧
      (∀ f ∈ result.drift_report.findings,
        f.drift_type = DriftType.SchemaMismatch ∧
        f.severity = DriftSeverity.Critical) ∧
      result.decision_plan.decisions.length = 1 ∧
      (∀ d ∈ result.decision_plan.decisions,
        d.action = IntendedAction.Enforce) := by
  refine ⟨⟨.Created,
    ⟨[⟨.SchemaMismatch, .Critical, "invalid schema identifier detected"⟩]⟩,
    ⟨[⟨.Critical, .Enforce, "critical drift"⟩]⟩⟩, ?_, rfl, rfl, ?_, rfl, ?_⟩
  · rfl
  · intro f hf
    simp only [List.mem_singleton] at hf
    subst hf
    exact ⟨rfl, rfl⟩
  · intro d hd
    simp only [List.mem_singleton] at hd
    subst hd
    rfl

/-- A successful replay fold started in `Active` or `Mutating` never
sees a `TableCreated` event, stays within those two states, and ends
where it started exactly when the number of events is even. -/
theorem replayFold_from_live (inv : InvariantEngine) :
    ∀ (events : List TableEvent) (s s' : TableState),
      (s = TableState.Active ∨ s = TableState.Mutating) →
      replayFold inv s events = .ok s' →
      (∀ e ∈ events, e.event_type ≠ EventType.TableCreated) ∧
      (s' = TableState.Active ∨ s' = TableState.Mutating) ∧
      (events.length % 2 = 0 → s' = s) ∧
      (events.length % 2 = 1 → s' ≠ s) := by
  intro events
  induction events with
  | nil =>
      intro s s' hs h
      simp only [replayFold, Except.ok.injEq] at h
      subst h
      simpa using hs
  | cons e rest ih =>
      intro s s' hs h
      obtain ⟨tid, ver, ety, pl⟩ := e
      have hstep :
          ∀ next : TableState,
            (next = TableState.Active ∨ next = TableState.Mutating) →
            next ≠ s →
            replayFold inv next rest = .ok s' →
            (∀ e' ∈ rest, e'.event_type ≠ EventType.TableCreated) →
            (⟨tid, ver, ety, pl⟩ : TableEvent).event_type ≠
                EventType.TableCreated →
            (∀ e' ∈ (⟨tid, ver, ety, pl⟩ : TableEvent) :: rest,
                e'.event_type ≠ EventType.TableCreated) ∧
            (s' = TableState.Active ∨ s' = TableState.Mutating) ∧
            (((⟨tid, ver, ety, pl⟩ : TableEvent) :: rest).length % 2 = 0 →
              s' = s) ∧
            (((⟨tid, ver, ety, pl⟩ : TableEvent) :: rest).length % 2 = 1 →
              s' ≠ s) := by
        intro next hnext hne hrest hno hcur
        obtain ⟨hall, hlive, heven, hodd⟩ := ih next s' hnext hrest
        refine ⟨?_, hlive, ?_, ?_⟩
        · intro e' he'
          rcases List.mem_cons.mp he' with h' | h'
          · subst h'; exact hcur
          · exact hall e' h'
        · intro hlen
          have : rest.length % 2 = 1 := by
            simp only [List.length_cons] at hlen; omega
          have hne' := hodd this
          rcases hnext with h' | h' <;> rcases hlive with h'' | h'' <;>
            rcases hs with h3 | h3 <;> subst h' <;> subst h'' <;>
            subst h3 <;> simp_all
        · intro hlen
          have : rest.length % 2 = 0 := by
            simp only [List.length_cons] at hlen; omega
          have heq := heven this
          subst heq
          exact hne
      rcases hs with hA | hM
      · subst hA
        cases ety with
        | TableCreated => simp [replayFold, TableStateMachine.apply] at h
        | SchemaUpdated =>
            simp only [replayFold, TableStateMachine.apply] at h
            cases hev : inv.evaluate TableState.Active
                ⟨tid, ver, EventType.SchemaUpdated, pl⟩ TableState.Mutating with
            | error v => rw [hev] at h; cases h
            | ok u =>
                cases u
                rw [hev] at h
                exact hstep .Mutating (Or.inr rfl) (by simp)
                  h (fun e' he' => ((ih .Mutating s' (Or.inr rfl) h).1 e' he'))
                  (by simp)
        | SnapshotAdded =>
            simp only [replayFold, TableStateMachine.apply] at h
            cases hev : inv.evaluate TableState.Active
                ⟨tid, ver, EventType.SnapshotAdded, pl⟩ TableState.Mutating with
            | error v => rw [hev] at h; cases h
            | ok u =>
                cases u
                rw [hev] at h
                exact hstep .Mutating (Or.inr rfl) (by simp)
                  h (fun e' he' => ((ih .Mutating s' (Or.inr rfl) h).1 e' he'))
                  (by simp)
        | SnapshotRemoved =>
            simp only [replayFold, TableStateMachine.apply] at h
            cases hev : inv.evaluate TableState.Active
                ⟨tid, ver, EventType.SnapshotRemoved, pl⟩ TableState.Mutating with
            | error v => rw [hev] at h; cases h
            | ok u =>
                cases u
                rw [hev] at h
                exact hstep .Mutating (Or.inr rfl) (by simp)
                  h (fun e' he' => ((ih .Mutating s' (Or.inr rfl) h).1 e' he'))
                  (by simp)
      · subst hM
        cases ety with
        | TableCreated => simp [replayFold, TableStateMachine.apply] at h
        | SchemaUpdated =>
            simp only [replayFold, TableStateMachine.apply] at h
            cases hev : inv.evaluate TableState.Mutating
                ⟨tid, ver, EventType.SchemaUpdated, pl⟩ TableState.Active with
            | error v => rw [hev] at h; cases h
            | ok u =>
                cases u
                rw [hev] at h
                exact hstep .Active (Or.inl rfl) (by simp)
                  h (fun e' he' => ((ih .Active s' (Or.inl rfl) h).1 e' he'))
                  (by simp)
        | SnapshotAdded =>
            simp only [replayFold, TableStateMachine.apply] at h
            cases hev : inv.evaluate TableState.Mutating
                ⟨tid, ver, EventType.SnapshotAdded, pl⟩ TableState.Active with
            | error v => rw [hev] at h; cases h
            | ok u =>
                cases u
                rw [hev] at h
                exact hstep .Active (Or.inl rfl) (by simp)
                  h (fun e' he' => ((ih .Active s' (Or.inl rfl) h).1 e' he'))
                  (by simp)
        | SnapshotRemoved =>
            simp only [replayFold, TableStateMachine.apply] at h
            cases hev : inv.evaluate TableState.Mutating
                ⟨tid, ver, EventType.SnapshotRemoved, pl⟩ TableState.Active with
            | error v => rw [hev] at h; cases h
            | ok u =>
                cases u
                rw [hev] at h
                exact hstep .Active (Or.inl rfl) (by simp)
                  h (fun e' he' => ((ih .Active s' (Or.inl rfl) h).1 e' he'))
                  (by simp)

/-- C10 (implicit): when replay succeeds on a non-empty log, the
first event is `TableCreated`, no later event is `TableCreated`, and
the final state is never `Created`: it is `Active` for an odd number
of events and `Mutating` for an even number. -/
theorem C10_successful_replay_shape (events : List TableEvent)
    (inv : InvariantEngine) (s : TableState)
    (hne : events ≠ [])
    (h : replay_table_state ⟨events⟩ inv = .ok s) :
    (∃ e rest, events = e :: rest ∧
      e.event_type = EventType.TableCreated ∧
      ∀ e' ∈ rest, e'.event_type ≠ EventType.TableCreated) ∧
    s ≠ TableState.Created ∧
    (events.length % 2 = 1 → s = TableState.Active) ∧
    (events.length % 2 = 0 → s = TableState.Mutating) := by
  have hfold : replayFold inv TableState.Created events = .ok s :=
    (replayLoop_eq_fold inv events TableState.Created).symm.trans h
  cases events with
  | nil => exact absurd rfl hne
  | cons e rest =>
      obtain ⟨tid, ver, ety, pl⟩ := e
      cases ety with
      | SchemaUpdated => simp [replayFold, TableStateMachine.apply] at hfold
      | SnapshotAdded => simp [replayFold, TableStateMachine.apply] at hfold
      | SnapshotRemoved => simp [replayFold, TableStateMachine.apply] at hfold
      | TableCreated =>
          simp only [replayFold, TableStateMachine.apply] at hfold
          cases hev : inv.evaluate TableState.Created
              ⟨tid, ver, EventType.TableCreated, pl⟩ TableState.Active with
          | error v => rw [hev] at hfold; cases hfold
          | ok u =>
              cases u
              rw [hev] at hfold
              obtain ⟨hall, hlive, heven, hodd⟩ :=
                replayFold_from_live inv rest TableState.Active s
                  (Or.inl rfl) hfold
              refine ⟨⟨⟨tid, ver, .TableCreated, pl⟩, rest, rfl, rfl, hall⟩,
                ?_, ?_, ?_⟩
              · rcases hlive with h' | h' <;> simp [h']
              · intro hlen
                apply heven
                simp only [List.length_cons] at hlen
                omega
              · intro hlen
                have : rest.length % 2 = 1 := by
                  simp only [List.length_cons] at hlen
                  omega
                have := hodd this
                rcases hlive with h' | h'
                · exact absurd h' this
                · exact h'

/-- Witness for C10 at the one-event log `[v1 TableCreated]` with an
empty invariant set: replay succeeds with `Active`. -/
theorem C10_successful_replay_shape_witness :
    (([⟨0, 1, .TableCreated, []⟩] : List TableEvent) ≠ []) ∧
    (replay_table_state ⟨[⟨0, 1, .TableCreated, []⟩]⟩ InvariantEngine.new =
      .ok TableState.Active) ∧
    ((∃ e rest, ([⟨0, 1, .TableCreated, []⟩] : List TableEvent) = e :: rest ∧
        e.event_type = EventType.TableCreated ∧
        ∀ e' ∈ rest, e'.event_type ≠ EventType.TableCreated) ∧
      TableState.Active ≠ TableState.Created ∧
      (([⟨0, 1, .TableCreated, []⟩] : List TableEvent).length % 2 = 1 →
        TableState.Active = TableState.Active) ∧
      (([⟨0, 1, .TableCreated, []⟩] : List TableEvent).length % 2 = 0 →
        TableState.Active = TableState.Mutating)) :=
  ⟨by simp, rfl,
    C10_successful_replay_shape [⟨0, 1, .TableCreated, []⟩]
      InvariantEngine.new TableState.Active (by simp) rfl⟩

end AxiomKernel
